import Mathlib

/-!
Verification of the mempool-listener repository against its specification.

The development shallowly embeds the three source files of this repository:
  src/fetchhhh.ts  (polling variant: TTLSet dedup, bounded queue, retrying fetch, poll loop)
  src/id.ts        (push variant: plain Set dedup, batched worker, txpool backfill)
  src/index.js     (minimal subscription listener)

Conventions of the embedding:
  - JavaScript strings are Lean String; absent (null or undefined) values are Option.
  - Date.now() timestamps are Nat milliseconds, passed explicitly to every operation
    that reads the clock; a synchronous code section is modelled at one instant.
  - toLowerCase() is modelled characterwise with Char.toLower, the ASCII case
    mapping, which is all that the hexadecimal inputs of this program exercise.
  - fs.appendFileSync is modelled as appending a (timestamp, hash) record to a
    list; rendering of the written line text is the separate function renderLine.
    A failing append (an I/O exception) is an explicit Boolean outcome.
  - provider.getTransaction is an oracle per hash and per attempt index; a thrown
    network error and a null result are both modelled as none, because the source
    treats the two identically (catch-and-fall-through to the backoff sleep).
  - The backoff factor 1.4 is modelled as the rational 7/5; computed delays are
    recorded in a list instead of being slept.
  - The CONCURRENCY worker pool of fetchhhh.ts and the Promise.all batch of id.ts
    are modelled sequentially: JavaScript interleaves them only at await points,
    which changes completion order across distinct hashes but not the per-hash
    effects reasoned about here.
-/

/-- Characterwise model of JavaScript String.prototype.toLowerCase (ASCII range). -/
def toLowerS (s : String) : String := ⟨s.data.map Char.toLower⟩

/-- A transaction detail as used by the filters: recipient (possibly absent) and hash. -/
structure Tx where
  to? : Option String
  hash : String

/-- Association-list lookup, the model of Map.prototype.get. -/
def lookupTS : List (String × Nat) → String → Option Nat
  | [], _ => none
  | kv :: rest, k => if kv.1 = k then some kv.2 else lookupTS rest k

/-- Model of Map.prototype.set: replaces the value in place when the key is
present (JavaScript Maps keep the original insertion position), else appends. -/
def setEntry (m : List (String × Nat)) (k : String) (v : Nat) : List (String × Nat) :=
  if m.any (fun kv => kv.1 = k) then
    m.map (fun kv => if kv.1 = k then (k, v) else kv)
  else m ++ [(k, v)]

/-- Model of Map.prototype.delete. -/
def eraseKey (m : List (String × Nat)) (k : String) : List (String × Nat) :=
  m.filter (fun kv => kv.1 ≠ k)

/-- Keys of the map are pairwise distinct: the representation invariant of the
association-list model of a JavaScript Map. -/
def WFKeys (m : List (String × Nat)) : Prop := (m.map Prod.fst).Nodup

/-- Rendering of one output line, `<timestamp> | <hash>` plus newline, with the
external Date.toISOString capability abstracted as iso. -/
def renderLine (iso : Nat → String) (r : Nat × String) : String :=
  iso r.1 ++ " | " ++ r.2 ++ "\n"

namespace fetchhhh

/-! Embedding of src/fetchhhh.ts. -/

def MAX_RETRY : Nat := 6
def BASE_BACKOFF : Nat := 40
def SEEN_TTL_MS : Nat := 10 * 60 * 1000
def SEEN_MAX : Nat := 2000000
def SAVED_TTL_MS : Nat := 60 * 60 * 1000
def SAVED_MAX : Nat := 2000000
def MAX_QUEUE : Nat := 200000
def CLEAN_EVERY : Nat := 10000

/-- Math.ceil(MAX_QUEUE * 0.01): the float64 product of 200000 and 0.01 rounds to
exactly 2000.0, so the ceiling is 2000. -/
def QUEUE_DROP : Nat := 2000

def targetAddress : String := toLowerS "0x66a9893cC07D91D95644AEDD05D03f95e1dBA8Af"

/-- The TTLSet class: a Map from hash to expiry timestamp plus the tuning fields. -/
structure TTLSet where
  m : List (String × Nat)
  ttl : Nat
  max : Nat
  addCount : Nat

def TTLSet.size (s : TTLSet) : Nat := s.m.length

/-- TTLSet.has: an entry whose expiry is strictly in the past is deleted on the
spot and reported absent. Returns the result together with the mutated set. -/
def TTLSet.hasM (now : Nat) (s : TTLSet) (k : String) : Bool × TTLSet :=
  match lookupTS s.m k with
  | none => (false, s)
  | some t => if t < now then (false, { s with m := eraseKey s.m k }) else (true, s)

/-- Step 2 of TTLSet.cleanup: when the size still exceeds max, sort by expiry
ascending and delete the earliest-expiring excess entries (the per-key delete
loop of the source is rendered as a filter over the removed-key list,
equivalent for a Map, whose keys are unique). -/
def dropExcess (maxN : Nat) (m1 : List (String × Nat)) : List (String × Nat) :=
  if maxN < m1.length then
    let arr := m1.mergeSort (fun a b => decide (a.2 ≤ b.2))
    let removed := (arr.take (m1.length - maxN)).map Prod.fst
    m1.filter (fun kv => decide (kv.1 ∉ removed))
  else m1

/-- TTLSet.cleanup: step 1 deletes every entry whose expiry is strictly in the
past, then step 2 (dropExcess) trims to the configured maximum. -/
def TTLSet.cleanup (now : Nat) (s : TTLSet) : TTLSet :=
  { s with m := dropExcess s.max (s.m.filter (fun kv => decide (¬ kv.2 < now))) }

/-- TTLSet.add: sets the expiry to now + ttl, then runs cleanup when the
incremented add counter hits a multiple of CLEAN_EVERY or the size exceeds max. -/
def TTLSet.add (now : Nat) (k : String) (s : TTLSet) : TTLSet :=
  let s1 : TTLSet := { s with m := setEntry s.m k (now + s.ttl), addCount := s.addCount + 1 }
  if (s.addCount + 1) % CLEAN_EVERY = 0 ∨ s1.max < s1.m.length then TTLSet.cleanup now s1 else s1

/-- The seen instance, new TTLSet(SEEN_TTL_MS, SEEN_MAX). -/
def seenInit : TTLSet := ⟨[], SEEN_TTL_MS, SEEN_MAX, 0⟩

/-- The saved instance, new TTLSet(SAVED_TTL_MS, SAVED_MAX). -/
def savedInit : TTLSet := ⟨[], SAVED_TTL_MS, SAVED_MAX, 0⟩

/-- Loop of getTxWithRetry: attempt i fetches; a truthy result returns
immediately, otherwise the delay BASE_BACKOFF * 1.4 ^ i is recorded and the next
attempt follows. The for-loop bound i < MAX_RETRY is carried as the structurally
decreasing count of remaining attempts; when it reaches zero null is returned. -/
def getTxLoop (f : Nat → Option Tx) : Nat → Nat → List ℚ → Option Tx × List ℚ
  | _, 0, acc => (none, acc)
  | i, rem + 1, acc =>
    match f i with
    | some tx => (some tx, acc)
    | none => getTxLoop f (i + 1) rem (acc ++ [(BASE_BACKOFF : ℚ) * (7 / 5) ^ i])

def getTxWithRetry (f : Nat → Option Tx) : Option Tx × List ℚ :=
  getTxLoop f 0 MAX_RETRY []

/-- State touched by saveIfMatch: the saved guard set and the output file,
modelled as the list of appended (timestamp, hash) records. -/
structure SaveState where
  saved : TTLSet
  out : List (Nat × String)

/-- saveIfMatch of fetchhhh.ts. There is no try/catch here: a failing append
(sinkOk = false on the write path) escapes as an exception, modelled as the
error case, carrying the state mutated so far (the has-call may have deleted an
expired entry before the throw). -/
def saveIfMatch (now : Nat) (sinkOk : Bool) (tx : Tx) (s : SaveState) :
    Except SaveState SaveState :=
  match tx.to? with
  | none => .ok s
  | some a =>
    let lo := toLowerS a
    if lo = "" ∨ lo ≠ targetAddress then .ok s
    else
      let h := toLowerS tx.hash
      let p := TTLSet.hasM now s.saved h
      if p.1 then .ok { s with saved := p.2 }
      else if sinkOk then
        .ok { saved := TTLSet.add now h p.2, out := s.out ++ [(now, h)] }
      else .error { s with saved := p.2 }

/-- The bounded queue together with the seen guard set. -/
structure QState where
  q : List String
  seen : TTLSet

/-- One iteration of the enqueueMany loop: lowercase, skip falsy, skip already
seen; when the queue is at or above MAX_QUEUE drop the oldest QUEUE_DROP entries
from the front; push the hash and mark it seen. -/
def enqStep (now : Nat) (s : QState) (raw : String) : QState :=
  let h := toLowerS raw
  if h = "" then s
  else
    let p := TTLSet.hasM now s.seen h
    if p.1 then { s with seen := p.2 }
    else
      let q1 := if MAX_QUEUE ≤ s.q.length then s.q.drop QUEUE_DROP else s.q
      { q := q1 ++ [h], seen := TTLSet.add now h p.2 }

def enqueueMany (now : Nat) (hashes : List String) (s : QState) : QState :=
  hashes.foldl (enqStep now) s

/-- A txpool_content response: the two buckets, each the flattening (in the
iteration order of the two nested key loops over sender then nonce) of the leaf
transaction objects to their optional hash fields; null buckets are none. -/
structure TxpoolContent where
  pending : Option (List (Option String))
  queued : Option (List (Option String))

/-- JavaScript truthiness filter on an optional hash: undefined and the empty
string are dropped. -/
def truthy (h? : Option String) : Option String :=
  match h? with
  | none => none
  | some h => if h = "" then none else some h

def extractBucket : Option (List (Option String)) → List String
  | none => []
  | some leaves => leaves.filterMap truthy

/-- Outcomes of the three RPC calls a backfill cycle may issue. -/
structure Rpc where
  txpool : Except Unit TxpoolContent
  ethPending : Except Unit (List (Option String))
  parityPending : Except Unit (List (Option String))

/-- listPendingHashes: txpool_content first, then eth_pendingTransactions, then
parity_pendingTransactions; when every method fails an Error is thrown,
modelled as the error case. -/
def listPendingHashes (r : Rpc) : Except Unit (List String) :=
  match r.txpool with
  | .ok c => .ok (extractBucket c.pending ++ extractBucket c.queued)
  | .error _ =>
    match r.ethPending with
    | .ok arr => .ok (arr.filterMap truthy)
    | .error _ =>
      match r.parityPending with
      | .ok arr => .ok (arr.filterMap truthy)
      | .error _ => .error ()

/-- Whole pipeline state of fetchhhh.ts. -/
structure PState where
  q : List String
  seen : TTLSet
  saved : TTLSet
  out : List (Nat × String)

/-- Batch body of processQueue, workers rendered sequentially: each hash is
fetched with retry and, when resolved, passed to saveIfMatch. An exception from
saveIfMatch rejects the batch: the flag records that processQueue will rethrow,
with the state mutated so far kept (JavaScript mutations are not rolled back). -/
def runBatch (now : Nat) (oracle : String → Nat → Option Tx) (sinkOk : Bool) :
    List String → SaveState → SaveState × Bool
  | [], ss => (ss, false)
  | h :: rest, ss =>
    match (getTxWithRetry (oracle h)).1 with
    | none => runBatch now oracle sinkOk rest ss
    | some tx =>
      match saveIfMatch now sinkOk tx ss with
      | .ok ss1 => runBatch now oracle sinkOk rest ss1
      | .error ss1 => (ss1, true)

/-- processQueue: snapshot the first min(q.length, MAX_QUEUE) hashes, run the
batch, then splice the consumed prefix off the queue; when the batch threw, the
splice is skipped and the exception propagates (the returned flag). -/
def processQueue (now : Nat) (oracle : String → Nat → Option Tx) (sinkOk : Bool)
    (s : PState) : PState × Bool :=
  if s.q.isEmpty then (s, false)
  else
    let N := min s.q.length MAX_QUEUE
    let r := runBatch now oracle sinkOk (s.q.take N) ⟨s.saved, s.out⟩
    if r.2 then ({ s with saved := r.1.saved, out := r.1.out }, true)
    else ({ s with q := s.q.drop N, saved := r.1.saved, out := r.1.out }, false)

/-- One iteration of the poll loop body: list pending hashes, enqueue them when
nonempty, process the queue, then with probability 0.1 (the rand10 input) clean
both TTL sets. Any exception is caught by the surrounding try: the returned flag
records that the warning was logged and the rest of the body skipped. -/
def loopIter (r : Rpc) (oracle : String → Nat → Option Tx) (sinkOk : Bool)
    (rand10 : Bool) (now : Nat) (s : PState) : PState × Bool :=
  match listPendingHashes r with
  | .error _ => (s, true)
  | .ok list =>
    let s1 :=
      if list.isEmpty then s
      else
        let qs := enqueueMany now list ⟨s.q, s.seen⟩
        { s with q := qs.q, seen := qs.seen }
    let pr := processQueue now oracle sinkOk s1
    if pr.2 then (pr.1, true)
    else
      if rand10 then
        ({ pr.1 with seen := TTLSet.cleanup now pr.1.seen,
                     saved := TTLSet.cleanup now pr.1.saved }, false)
      else (pr.1, false)

/-- Per-cycle inputs of the poll loop: RPC outcomes, sink health, the cleanup
coin flip, and the clock reading. -/
structure CycleInput where
  rpc : Rpc
  sinkOk : Bool
  rand10 : Bool
  now : Nat

/-- The infinite loop restricted to finitely many observed cycles: every cycle
runs regardless of the previous cycle's caught failure. -/
def runCycles (oracle : String → Nat → Option Tx) (cs : List CycleInput)
    (s : PState) : PState :=
  cs.foldl (fun st c => (loopIter c.rpc oracle c.sinkOk c.rand10 c.now st).1) s

end fetchhhh

namespace idts

/-! Embedding of src/id.ts. -/

def BATCH_SIZE : Nat := 8000
def MAX_RETRY : Nat := 100
def BASE_BACKOFF_MS : Nat := 50

def targetAddress : String := toLowerS "0x66a9893cC07D91D95644AEDD05D03f95e1dBA8Af"

/-- Pipeline state of id.ts: queue, unbounded seen and saved Sets (kept in
insertion order), and the output file records. -/
structure St where
  q : List String
  seen : List String
  saved : List String
  out : List (Nat × String)

/-- enqueue: reject falsy input, lowercase, and push only when not yet seen. -/
def enqueue (hash : String) (s : St) : St :=
  if hash = "" then s
  else
    let h := toLowerS hash
    if h ∈ s.seen then s
    else { s with seen := s.seen ++ [h], q := s.q ++ [h] }

/-- Loop of fetchTxWithRetry: attempt counts from 0; after a failed attempt the
counter is incremented first and the recorded delay is
BASE_BACKOFF_MS * 1.4 ^ (incremented counter), so the exponent starts at 1. The
while-loop bound attempt < MAX_RETRY is carried as the structurally decreasing
count of remaining attempts. -/
def fetchLoop (f : Nat → Option Tx) : Nat → Nat → List ℚ → Option Tx × List ℚ
  | _, 0, acc => (none, acc)
  | attempt, rem + 1, acc =>
    match f attempt with
    | some tx => (some tx, acc)
    | none =>
      fetchLoop f (attempt + 1) rem (acc ++ [(BASE_BACKOFF_MS : ℚ) * (7 / 5) ^ (attempt + 1)])

def fetchTxWithRetry (f : Nat → Option Tx) : Option Tx × List ℚ :=
  fetchLoop f 0 MAX_RETRY []

/-- saveIfMatch of id.ts: the whole body sits in a try/catch, so a failing
append is caught and logged (the returned flag) and, since saved.add follows the
append, the hash is left unmarked. -/
def saveIfMatch (now : Nat) (sinkOk : Bool) (tx : Tx) (s : St) : St × Bool :=
  match tx.to? with
  | none => (s, false)
  | some a =>
    let lo := toLowerS a
    if lo = "" then (s, false)
    else if lo = targetAddress then
      let h := toLowerS tx.hash
      if h ∈ s.saved then (s, false)
      else if sinkOk then
        ({ s with saved := s.saved ++ [h], out := s.out ++ [(now, h)] }, false)
      else (s, true)
    else (s, false)

/-- worker: splice a batch of up to BATCH_SIZE hashes off the queue, then fetch
each with retry and pass resolved details to saveIfMatch; unresolved hashes are
skipped. The Promise.all is rendered sequentially. -/
def worker (now : Nat) (oracle : String → Nat → Option Tx) (sinkOk : Bool) (s : St) : St :=
  if s.q.isEmpty then s
  else
    let batch := s.q.take BATCH_SIZE
    let s1 : St := { s with q := s.q.drop BATCH_SIZE }
    batch.foldl
      (fun st h =>
        match (fetchTxWithRetry (oracle h)).1 with
        | none => st
        | some tx => (saveIfMatch now sinkOk tx st).1)
      s1

end idts

namespace indexjs

/-! Embedding of src/index.js. -/

def targetAddress : String := toLowerS "0x66a9893cC07D91D95644AEDD05D03f95e1dBA8Af"

/-- The pending-event handler of index.js: fetch the transaction; a null result
makes the debugging serialization throw, caught by the handler's catch, so
nothing is written; otherwise on a recipient match the line is appended with the
subscription-delivered txHash written verbatim (not lowercased). -/
def handler (txHash : String) (fetched : Option Tx) (now : Nat)
    (out : List (Nat × String)) : List (Nat × String) :=
  match fetched with
  | none => out
  | some tx =>
    match tx.to? with
    | none => out
    | some a =>
      if a = "" then out
      else if toLowerS a = targetAddress then out ++ [(now, txHash)]
      else out

end indexjs

/-! Concrete instances used by witnesses and counterexamples. -/

/-- A queue filled to MAX_QUEUE entries. -/
def bigQ : List String := List.replicate fetchhhh.MAX_QUEUE "q"

/-- n pairwise-distinct nonempty lowercase hashes (distinct lengths). -/
def freshHashes (n : Nat) : List String :=
  (List.range n).map (fun i => (⟨List.replicate (i + 1) 'b'⟩ : String))

/-- A transaction addressed to the target, hash in upper case. -/
def txMatch : Tx := ⟨some "0x66a9893cC07D91D95644AEDD05D03f95e1dBA8Af", "0xAA"⟩

/-- A fetch oracle that resolves every hash immediately to txMatch. -/
def oracleMatch : String → Nat → Option Tx := fun _ _ => some txMatch

/-- RPC outcomes of a cycle whose txpool_content succeeds with an empty pool. -/
def rpcEmptyOk : fetchhhh.Rpc := ⟨.ok ⟨some [], some []⟩, .error (), .error ()⟩

/-- RPC outcomes of a cycle in which every pending-list method fails. -/
def rpcAllFail : fetchhhh.Rpc := ⟨.error (), .error (), .error ()⟩

/-- A pipeline state holding one queued matching hash and empty guard sets. -/
def pStateOne : fetchhhh.PState := ⟨["0xaa"], fetchhhh.seenInit, fetchhhh.savedInit, []⟩

/-! Support lemmas about the association-list Map model. -/

lemma ofNat_add32 (n : Nat) (h1 : 65 ≤ n) (h2 : n ≤ 90) :
    (Char.ofNat (n + 32)).toNat = n + 32 := by
  interval_cases n <;> decide

lemma toLower_idem (c : Char) : c.toLower.toLower = c.toLower := by
  unfold Char.toLower
  by_cases h : c.toNat ≥ 65 ∧ c.toNat ≤ 90
  · rw [if_pos h]
    have hv := ofNat_add32 c.toNat h.1 h.2
    rw [if_neg]
    intro hc
    rw [hv] at hc
    omega
  · rw [if_neg h, if_neg h]

lemma toLowerS_idem (s : String) : toLowerS (toLowerS s) = toLowerS s := by
  simp only [toLowerS, List.map_map]
  congr 1
  apply List.map_congr_left
  intro c _
  exact toLower_idem c

lemma lookupTS_filter_none {m : List (String × Nat)} {k : String} (p : String × Nat → Bool)
    (h : lookupTS m k = none) : lookupTS (m.filter p) k = none := by
  induction m with
  | nil => simp [lookupTS]
  | cons kv rest ih =>
    rw [lookupTS] at h
    by_cases hk : kv.1 = k
    · simp [hk] at h
    · rw [if_neg hk] at h
      rw [List.filter_cons]
      by_cases hp : p kv
      · simp only [hp, if_true]
        rw [lookupTS, if_neg hk]
        exact ih h
      · simp only [hp]
        simp only [Bool.false_eq_true, if_false]
        exact ih h

lemma lookupTS_append_none {m m2 : List (String × Nat)} {k : String}
    (h : lookupTS m k = none) :
    lookupTS (m ++ m2) k = lookupTS m2 k := by
  induction m with
  | nil => simp
  | cons kv rest ih =>
    rw [lookupTS] at h
    by_cases hk : kv.1 = k
    · simp [hk] at h
    · rw [if_neg hk] at h
      rw [List.cons_append, lookupTS, if_neg hk]
      exact ih h

lemma any_key_iff (m : List (String × Nat)) (k : String) :
    m.any (fun kv => kv.1 = k) = true ↔ k ∈ m.map Prod.fst := by
  simp only [List.any_eq_true, decide_eq_true_eq, List.mem_map]

lemma lookupTS_none_iff (m : List (String × Nat)) (k : String) :
    lookupTS m k = none ↔ k ∉ m.map Prod.fst := by
  induction m with
  | nil => simp [lookupTS]
  | cons kv rest ih =>
    rw [lookupTS]
    by_cases hk : kv.1 = k
    · simp [hk]
    · rw [if_neg hk]
      simp only [List.map_cons, List.mem_cons]
      rw [ih]
      constructor
      · intro h hc
        rcases hc with hc | hc
        · exact hk hc.symm
        · exact h hc
      · intro h hc
        exact h (Or.inr hc)

lemma setEntry_of_absent {m : List (String × Nat)} {k : String} (v : Nat)
    (h : lookupTS m k = none) : setEntry m k v = m ++ [(k, v)] := by
  rw [setEntry, if_neg]
  intro hc
  rw [any_key_iff] at hc
  rw [lookupTS_none_iff] at h
  exact h hc


lemma lookupTS_map_replace_ne (m : List (String × Nat)) {k k' : String} (v : Nat)
    (h : k' ≠ k) :
    lookupTS (m.map (fun kv => if kv.1 = k' then (k', v) else kv)) k = lookupTS m k := by
  induction m with
  | nil => rfl
  | cons kv rest ih =>
    rw [List.map_cons]
    by_cases hk : kv.1 = k'
    · rw [if_pos hk, lookupTS, lookupTS]
      rw [if_neg h, if_neg (show ¬ kv.1 = k by rw [hk]; exact h)]
      exact ih
    · rw [if_neg hk, lookupTS, lookupTS]
      by_cases hk2 : kv.1 = k
      · rw [if_pos hk2, if_pos hk2]
      · rw [if_neg hk2, if_neg hk2]
        exact ih

lemma lookupTS_map_replace_self (m : List (String × Nat)) (k : String) (v : Nat)
    (hmem : k ∈ m.map Prod.fst) :
    lookupTS (m.map (fun kv => if kv.1 = k then (k, v) else kv)) k = some v := by
  induction m with
  | nil => simp at hmem
  | cons kv rest ih =>
    simp only [List.map_cons, List.mem_cons] at hmem
    rw [List.map_cons]
    by_cases hk : kv.1 = k
    · rw [if_pos hk, lookupTS, if_pos rfl]
    · rw [if_neg hk, lookupTS, if_neg hk]
      apply ih
      rcases hmem with hc | hc
      · exact absurd hc.symm hk
      · exact hc

lemma lookupTS_setEntry_self (m : List (String × Nat)) (k : String) (v : Nat) :
    lookupTS (setEntry m k v) k = some v := by
  rw [setEntry]
  by_cases hany : m.any (fun kv => kv.1 = k) = true
  · rw [if_pos hany]
    exact lookupTS_map_replace_self m k v ((any_key_iff m k).mp hany)
  · rw [if_neg hany]
    have hnone : lookupTS m k = none := by
      rw [lookupTS_none_iff]
      intro hc
      exact hany ((any_key_iff m k).mpr hc)
    rw [lookupTS_append_none hnone, lookupTS, if_pos rfl]

lemma lookupTS_setEntry_ne (m : List (String × Nat)) {k k' : String} (v : Nat)
    (h : k' ≠ k) : lookupTS (setEntry m k' v) k = lookupTS m k := by
  rw [setEntry]
  by_cases hany : m.any (fun kv => kv.1 = k') = true
  · rw [if_pos hany]
    exact lookupTS_map_replace_ne m v h
  · rw [if_neg hany]
    induction m with
    | nil => simp [lookupTS, h]
    | cons kv rest ih =>
      rw [List.cons_append, lookupTS, lookupTS]
      by_cases hk2 : kv.1 = k
      · rw [if_pos hk2, if_pos hk2]
      · rw [if_neg hk2, if_neg hk2]
        apply ih
        intro hc
        apply hany
        rw [List.any_cons, hc]
        simp

lemma wfkeys_filter {m : List (String × Nat)} (p : String × Nat → Bool)
    (h : WFKeys m) : WFKeys (m.filter p) :=
  ((List.filter_sublist m).map Prod.fst).nodup h

lemma wfkeys_eq_of_mem {m : List (String × Nat)} (h : WFKeys m) {a b : String × Nat}
    (ha : a ∈ m) (hb : b ∈ m) (hk : a.1 = b.1) : a = b := by
  induction m with
  | nil => simp at ha
  | cons kv rest ih =>
    rw [WFKeys, List.map_cons, List.nodup_cons] at h
    rcases List.mem_cons.mp ha with ha1 | ha1 <;> rcases List.mem_cons.mp hb with hb1 | hb1
    · rw [ha1, hb1]
    · exfalso
      apply h.1
      have hkb : kv.1 = b.1 := by
        rw [← ha1]
        exact hk
      rw [hkb]
      exact List.mem_map_of_mem Prod.fst hb1
    · exfalso
      apply h.1
      have hka : kv.1 = a.1 := by
        rw [← hb1]
        exact hk.symm
      rw [hka]
      exact List.mem_map_of_mem Prod.fst ha1
    · exact ih h.2 ha1 hb1

lemma wfkeys_setEntry {m : List (String × Nat)} (k : String) (v : Nat)
    (h : WFKeys m) : WFKeys (setEntry m k v) := by
  rw [setEntry]
  split
  · rw [WFKeys, List.map_map]
    have : (Prod.fst ∘ fun kv : String × Nat => if kv.1 = k then (k, v) else kv) = Prod.fst := by
      funext kv
      by_cases hk : kv.1 = k
      · simp [hk]
      · simp [hk]
    rw [this]
    exact h
  · rename_i hany
    rw [WFKeys, List.map_append]
    rw [List.nodup_append]
    refine ⟨h, List.nodup_singleton k, ?_⟩
    intro x hx hx2
    simp only [List.map_cons, List.map_nil, List.mem_singleton] at hx2
    subst hx2
    exact hany ((any_key_iff m x).mpr hx)

namespace fetchhhh

lemma hasM_of_absent (now : Nat) (s : TTLSet) (k : String)
    (h : lookupTS s.m k = none) : TTLSet.hasM now s k = (false, s) := by
  rw [TTLSet.hasM, h]

lemma hasM_of_live (now : Nat) (s : TTLSet) (k : String) (t : Nat)
    (h : lookupTS s.m k = some t) (ht : ¬ t < now) : TTLSet.hasM now s k = (true, s) := by
  rw [TTLSet.hasM, h]
  simp [ht]

lemma dropExcess_absent (maxN : Nat) (m1 : List (String × Nat)) (k : String)
    (h : lookupTS m1 k = none) : lookupTS (dropExcess maxN m1) k = none := by
  rw [dropExcess]
  dsimp only
  split
  · exact lookupTS_filter_none _ h
  · exact h

lemma cleanup_absent (now : Nat) (s : TTLSet) (k : String)
    (h : lookupTS s.m k = none) :
    lookupTS (TTLSet.cleanup now s).m k = none := by
  rw [TTLSet.cleanup]
  exact dropExcess_absent _ _ _ (lookupTS_filter_none _ h)

lemma add_absent_ne (now : Nat) (s : TTLSet) {k k' : String}
    (hne : k' ≠ k) (h : lookupTS s.m k = none) :
    lookupTS (TTLSet.add now k' s).m k = none := by
  rw [TTLSet.add]
  dsimp only
  have hset : lookupTS (setEntry s.m k' (now + s.ttl)) k = none := by
    rw [lookupTS_setEntry_ne _ _ hne]
    exact h
  split
  · exact cleanup_absent now _ k hset
  · exact hset

lemma add_no_trigger (now : Nat) (s : TTLSet) (k : String)
    (h1 : (s.addCount + 1) % CLEAN_EVERY ≠ 0)
    (h2 : (setEntry s.m k (now + s.ttl)).length ≤ s.max) :
    TTLSet.add now k s = ⟨setEntry s.m k (now + s.ttl), s.ttl, s.max, s.addCount + 1⟩ := by
  rw [TTLSet.add]
  dsimp only
  rw [if_neg]
  rintro (hc | hc)
  · exact h1 hc
  · exact absurd h2 (not_le.mpr hc)

lemma wfkeys_dropExcess (maxN : Nat) (m1 : List (String × Nat)) (h : WFKeys m1) :
    WFKeys (dropExcess maxN m1) := by
  rw [dropExcess]
  dsimp only
  split
  · exact wfkeys_filter _ h
  · exact h

lemma wfkeys_cleanup (now : Nat) (s : TTLSet) (h : WFKeys s.m) :
    WFKeys (TTLSet.cleanup now s).m := by
  rw [TTLSet.cleanup]
  exact wfkeys_dropExcess _ _ (wfkeys_filter _ h)

lemma dropExcess_length_le (maxN : Nat) (m1 : List (String × Nat)) (h : WFKeys m1) :
    (dropExcess maxN m1).length ≤ maxN := by
  rw [dropExcess]
  dsimp only
  by_cases hover : maxN < m1.length
  · rw [if_pos hover]
    set arr := m1.mergeSort (fun a b => decide (a.2 ≤ b.2)) with harr
    set toRemove := m1.length - maxN with htr
    set removed := (arr.take toRemove).map Prod.fst with hrem
    have hperm : arr.Perm m1 := List.mergeSort_perm m1 _
    have hwfarr : (arr.map Prod.fst).Nodup := by
      rw [(hperm.map Prod.fst).nodup_iff]
      exact h
    have hsplit : arr.take toRemove ++ arr.drop toRemove = arr := List.take_append_drop _ _
    have hdisj : (arr.take toRemove).map Prod.fst |>.Disjoint ((arr.drop toRemove).map Prod.fst) := by
      have hnd : ((arr.take toRemove).map Prod.fst ++ (arr.drop toRemove).map Prod.fst).Nodup := by
        rw [← List.map_append, hsplit]
        exact hwfarr
      exact (List.nodup_append.mp hnd).2.2
    have hlenfil :
        (m1.filter (fun kv => decide (kv.1 ∉ removed))).length
          = (arr.filter (fun kv => decide (kv.1 ∉ removed))).length :=
      (hperm.symm.filter _).length_eq
    have htake : (arr.take toRemove).filter (fun kv => decide (kv.1 ∉ removed)) = [] := by
      rw [List.filter_eq_nil_iff]
      intro kv hkv
      simp only [decide_eq_true_eq, not_not]
      exact List.mem_map_of_mem Prod.fst hkv
    have hdropf : (arr.drop toRemove).filter (fun kv => decide (kv.1 ∉ removed)) = arr.drop toRemove := by
      rw [List.filter_eq_self]
      intro kv hkv
      simp only [decide_eq_true_eq]
      intro hc
      exact hdisj hc (List.mem_map_of_mem Prod.fst hkv)
    have harrfil : arr.filter (fun kv => decide (kv.1 ∉ removed)) = arr.drop toRemove := by
      conv_lhs => rw [← hsplit]
      rw [List.filter_append, htake, hdropf, List.nil_append]
    rw [hlenfil, harrfil, List.length_drop, hperm.length_eq]
    omega
  · rw [if_neg hover]
    omega

lemma cleanup_size_le (now : Nat) (s : TTLSet) (h : WFKeys s.m) :
    (TTLSet.cleanup now s).size ≤ s.max := by
  rw [TTLSet.cleanup, TTLSet.size]
  exact dropExcess_length_le _ _ (wfkeys_filter _ h)

lemma add_size_le (now : Nat) (s : TTLSet) (k : String) (h : WFKeys s.m) :
    (TTLSet.add now k s).size ≤ s.max := by
  rw [TTLSet.add]
  dsimp only
  split
  · exact cleanup_size_le now _ (wfkeys_setEntry k _ h)
  · rename_i hc
    rw [TTLSet.size]
    dsimp only
    omega

end fetchhhh

namespace fetchhhh

lemma dropExcess_subset (maxN : Nat) (m1 : List (String × Nat)) :
    ∀ kv ∈ dropExcess maxN m1, kv ∈ m1 := by
  intro kv hkv
  rw [dropExcess] at hkv
  dsimp only at hkv
  by_cases hover : maxN < m1.length
  · rw [if_pos hover] at hkv
    exact (List.mem_filter.mp hkv).1
  · rw [if_neg hover] at hkv
    exact hkv

lemma cleanup_not_expired (now : Nat) (s : TTLSet) :
    ∀ kv ∈ (TTLSet.cleanup now s).m, ¬ kv.2 < now := by
  intro kv hkv
  rw [TTLSet.cleanup] at hkv
  dsimp only at hkv
  have hm1 : kv ∈ s.m.filter (fun kv => decide (¬ kv.2 < now)) :=
    dropExcess_subset _ _ kv hkv
  simpa using (List.mem_filter.mp hm1).2

lemma dropExcess_earliest (maxN : Nat) (m1 : List (String × Nat)) (h : WFKeys m1) :
    ∀ kv ∈ m1, kv ∉ dropExcess maxN m1 →
      ∀ kv2 ∈ dropExcess maxN m1, kv.2 ≤ kv2.2 := by
  intro kv hkv hnot kv2 hkv2
  rw [dropExcess] at hnot hkv2
  dsimp only at hnot hkv2
  by_cases hover : maxN < m1.length
  · rw [if_pos hover] at hnot hkv2
    set arr := m1.mergeSort (fun a b => decide (a.2 ≤ b.2)) with harr
    set toRemove := m1.length - maxN with htr
    set removed := (arr.take toRemove).map Prod.fst with hrem
    have hperm : arr.Perm m1 := List.mergeSort_perm m1 _
    have hkvrem : kv.1 ∈ removed := by
      by_contra hc
      exact hnot (List.mem_filter.mpr ⟨hkv, by simpa using hc⟩)
    obtain ⟨kv', hkv'take, hkey⟩ := List.mem_map.mp hkvrem
    have hkv'm1 : kv' ∈ m1 := hperm.subset ((List.take_sublist _ _).subset hkv'take)
    have hkv'eq : kv' = kv := wfkeys_eq_of_mem h hkv'm1 hkv hkey
    have hkvtake : kv ∈ arr.take toRemove := hkv'eq ▸ hkv'take
    have hkv2m1 := List.mem_filter.mp hkv2
    have hkv2arr : kv2 ∈ arr := hperm.mem_iff.mpr hkv2m1.1
    have hsorted : List.Pairwise (fun a b : String × Nat => decide (a.2 ≤ b.2) = true) arr := by
      apply List.sorted_mergeSort
      · intro a b c hab hbc
        simp only [decide_eq_true_eq] at hab hbc ⊢
        omega
      · intro a b
        simp only [Bool.or_eq_true, decide_eq_true_eq]
        exact Nat.le_total a.2 b.2
    have hsplit : arr.take toRemove ++ arr.drop toRemove = arr := List.take_append_drop _ _
    have hkv2drop : kv2 ∈ arr.drop toRemove := by
      rw [← hsplit] at hkv2arr
      rcases List.mem_append.mp hkv2arr with hc | hc
      · exfalso
        have : kv2.1 ∈ removed := List.mem_map_of_mem Prod.fst hc
        have hdec := hkv2m1.2
        simp only [decide_eq_true_eq] at hdec
        exact hdec this
      · exact hc
    have hpw := (List.pairwise_append.mp (hsplit ▸ hsorted)).2.2
    have := hpw kv hkvtake kv2 hkv2drop
    simpa using this
  · rw [if_neg hover] at hnot
    exact absurd hkv hnot

lemma cleanup_earliest (now : Nat) (s : TTLSet) (h : WFKeys s.m) :
    ∀ kv ∈ s.m, ¬ kv.2 < now → kv ∉ (TTLSet.cleanup now s).m →
      ∀ kv2 ∈ (TTLSet.cleanup now s).m, kv.2 ≤ kv2.2 := by
  intro kv hkv hlive hnot kv2 hkv2
  rw [TTLSet.cleanup] at hnot hkv2
  dsimp only at hnot hkv2
  have hkvm1 : kv ∈ s.m.filter (fun kv => decide (¬ kv.2 < now)) :=
    List.mem_filter.mpr ⟨hkv, by simpa using hlive⟩
  exact dropExcess_earliest _ _ (wfkeys_filter _ h) kv hkvm1 hnot kv2 hkv2

end fetchhhh

namespace fetchhhh

lemma hasM_of_expired (now : Nat) (s : TTLSet) (k : String) (t : Nat)
    (h : lookupTS s.m k = some t) (ht : t < now) :
    TTLSet.hasM now s k = (false, { s with m := eraseKey s.m k }) := by
  rw [TTLSet.hasM, h]
  dsimp only
  rw [if_pos ht]

lemma targetAddress_ne_empty : targetAddress ≠ "" := by decide

lemma saveIfMatch_fresh (now : Nat) (tx : Tx) (a : String) (s : SaveState)
    (hto : tx.to? = some a) (ha : toLowerS a = targetAddress)
    (habs : lookupTS s.saved.m (toLowerS tx.hash) = none) :
    saveIfMatch now true tx s =
      .ok ⟨TTLSet.add now (toLowerS tx.hash) s.saved,
           s.out ++ [(now, toLowerS tx.hash)]⟩ := by
  rw [saveIfMatch, hto]
  dsimp only
  rw [ha]
  rw [if_neg]
  · rw [hasM_of_absent now s.saved _ habs]
    simp
  · rintro (hc | hc)
    · exact targetAddress_ne_empty hc
    · exact hc rfl

lemma saveIfMatch_dup (now : Nat) (sinkOk : Bool) (tx : Tx) (a : String) (s : SaveState)
    (t : Nat) (hto : tx.to? = some a) (ha : toLowerS a = targetAddress)
    (hlive : lookupTS s.saved.m (toLowerS tx.hash) = some t) (ht : ¬ t < now) :
    saveIfMatch now sinkOk tx s = .ok s := by
  rw [saveIfMatch, hto]
  dsimp only
  rw [ha]
  rw [if_neg]
  · rw [hasM_of_live now s.saved _ t hlive ht]
    simp
  · rintro (hc | hc)
    · exact targetAddress_ne_empty hc
    · exact hc rfl

lemma saveIfMatch_sinkfail (now : Nat) (tx : Tx) (a : String) (s : SaveState)
    (hto : tx.to? = some a) (ha : toLowerS a = targetAddress)
    (habs : lookupTS s.saved.m (toLowerS tx.hash) = none) :
    saveIfMatch now false tx s = .error s := by
  rw [saveIfMatch, hto]
  dsimp only
  rw [ha]
  rw [if_neg]
  · rw [hasM_of_absent now s.saved _ habs]
    simp
  · rintro (hc | hc)
    · exact targetAddress_ne_empty hc
    · exact hc rfl

end fetchhhh

/-- Claim C3: for every TTL Deduplication Set state with the Map representation
invariant, cleanup removes every entry whose expiry has passed, leaves the size
at most the configured maximum, and any still-live entry it evicted in step 2
expires no later than every surviving entry (earliest-expiring excess first). -/
theorem cleanup_spec (s : fetchhhh.TTLSet) (now : Nat) (h : WFKeys s.m) :
    (∀ kv ∈ (fetchhhh.TTLSet.cleanup now s).m, ¬ kv.2 < now)
    ∧ (fetchhhh.TTLSet.cleanup now s).size ≤ s.max
    ∧ (∀ kv ∈ s.m, ¬ kv.2 < now → kv ∉ (fetchhhh.TTLSet.cleanup now s).m →
        ∀ kv2 ∈ (fetchhhh.TTLSet.cleanup now s).m, kv.2 ≤ kv2.2) :=
  ⟨fetchhhh.cleanup_not_expired now s, fetchhhh.cleanup_size_le now s h,
   fetchhhh.cleanup_earliest now s h⟩

/-- Witness for cleanup_spec at a concrete two-entry set with max 1. -/
theorem cleanup_spec_witness :
    WFKeys (fetchhhh.TTLSet.m ⟨[("a", 5), ("b", 100)], 50, 1, 0⟩)
    ∧ ((∀ kv ∈ (fetchhhh.TTLSet.cleanup 10 ⟨[("a", 5), ("b", 100)], 50, 1, 0⟩).m, ¬ kv.2 < 10)
      ∧ (fetchhhh.TTLSet.cleanup 10 ⟨[("a", 5), ("b", 100)], 50, 1, 0⟩).size
          ≤ (⟨[("a", 5), ("b", 100)], 50, 1, 0⟩ : fetchhhh.TTLSet).max
      ∧ (∀ kv ∈ (⟨[("a", 5), ("b", 100)], 50, 1, 0⟩ : fetchhhh.TTLSet).m, ¬ kv.2 < 10 →
          kv ∉ (fetchhhh.TTLSet.cleanup 10 ⟨[("a", 5), ("b", 100)], 50, 1, 0⟩).m →
          ∀ kv2 ∈ (fetchhhh.TTLSet.cleanup 10 ⟨[("a", 5), ("b", 100)], 50, 1, 0⟩).m,
            kv.2 ≤ kv2.2)) :=
  ⟨by unfold WFKeys; decide, cleanup_spec ⟨[("a", 5), ("b", 100)], 50, 1, 0⟩ 10 (by unfold WFKeys; decide)⟩

/-- Claim C10: after every add on a well-formed TTL Deduplication Set the size is at
most the configured maximum, because an insert that pushes the size above the
maximum triggers cleanup synchronously before add returns. -/
theorem add_size_bounded (s : fetchhhh.TTLSet) (now : Nat) (k : String)
    (h : WFKeys s.m) :
    (fetchhhh.TTLSet.add now k s).size ≤ s.max
    ∧ (s.max < (setEntry s.m k (now + s.ttl)).length →
        fetchhhh.TTLSet.add now k s =
          fetchhhh.TTLSet.cleanup now
            ⟨setEntry s.m k (now + s.ttl), s.ttl, s.max, s.addCount + 1⟩) := by
  constructor
  · exact fetchhhh.add_size_le now s k h
  · intro hover
    rw [fetchhhh.TTLSet.add]
    dsimp only
    rw [if_pos (Or.inr hover)]

/-- Witness for add_size_bounded: inserting a second key into a full max-1 set
triggers the synchronous cleanup and the size stays at 1. -/
theorem add_size_bounded_witness :
    WFKeys (fetchhhh.TTLSet.m ⟨[("a", 50)], 10, 1, 0⟩)
    ∧ ((fetchhhh.TTLSet.add 3 "b" ⟨[("a", 50)], 10, 1, 0⟩).size
        ≤ (⟨[("a", 50)], 10, 1, 0⟩ : fetchhhh.TTLSet).max
      ∧ ((⟨[("a", 50)], 10, 1, 0⟩ : fetchhhh.TTLSet).max
            < (setEntry [("a", 50)] "b" (3 + 10)).length →
          fetchhhh.TTLSet.add 3 "b" ⟨[("a", 50)], 10, 1, 0⟩ =
            fetchhhh.TTLSet.cleanup 3 ⟨setEntry [("a", 50)] "b" (3 + 10), 10, 1, 0 + 1⟩)) :=
  ⟨by unfold WFKeys; decide, add_size_bounded ⟨[("a", 50)], 10, 1, 0⟩ 3 "b" (by unfold WFKeys; decide)⟩

/-- Claim C4: a hash added at time t0 into a TTL Deduplication Set (with the add not
tripping a cleanup) is reported present by has at every query time strictly
before t0 + TTL and absent once the expiry is strictly past, with no cleanup
call needed in between. -/
theorem has_after_add (s : fetchhhh.TTLSet) (k : String) (t0 now : Nat)
    (h1 : (s.addCount + 1) % fetchhhh.CLEAN_EVERY ≠ 0)
    (h2 : (setEntry s.m k (t0 + s.ttl)).length ≤ s.max) :
    (now < t0 + s.ttl →
      (fetchhhh.TTLSet.hasM now (fetchhhh.TTLSet.add t0 k s) k).1 = true)
    ∧ (t0 + s.ttl < now →
      (fetchhhh.TTLSet.hasM now (fetchhhh.TTLSet.add t0 k s) k).1 = false) := by
  rw [fetchhhh.add_no_trigger t0 s k h1 h2]
  constructor
  · intro hlt
    rw [fetchhhh.hasM_of_live now _ k (t0 + s.ttl) (lookupTS_setEntry_self s.m k _) (by omega)]
  · intro hlt
    rw [fetchhhh.hasM_of_expired now _ k (t0 + s.ttl) (lookupTS_setEntry_self s.m k _) (by omega)]

/-- Witness for has_after_add at the seen instance: present at once, absent
after the ten-minute TTL has strictly elapsed. -/
theorem has_after_add_witness :
    ((fetchhhh.seenInit.addCount + 1) % fetchhhh.CLEAN_EVERY ≠ 0
      ∧ (setEntry fetchhhh.seenInit.m "a" (0 + fetchhhh.seenInit.ttl)).length
          ≤ fetchhhh.seenInit.max)
    ∧ ((1 < 0 + fetchhhh.seenInit.ttl →
        (fetchhhh.TTLSet.hasM 1 (fetchhhh.TTLSet.add 0 "a" fetchhhh.seenInit) "a").1 = true)
      ∧ (0 + fetchhhh.seenInit.ttl < 1 →
        (fetchhhh.TTLSet.hasM 1 (fetchhhh.TTLSet.add 0 "a" fetchhhh.seenInit) "a").1 = false)) :=
  ⟨⟨by decide, by decide⟩, has_after_add fetchhhh.seenInit "a" 0 1 (by decide) (by decide)⟩

/-- Claim C1: a transaction whose recipient matches the target address (compared
case-insensitively) is recorded exactly once: the first saveIfMatch appends one
record and marks the hash in the saved set, and a second delivery of the same
hash (in any letter case) within the saved TTL window appends nothing. -/
theorem save_exactly_once (s : fetchhhh.SaveState) (tx1 tx2 : Tx) (a1 a2 : String)
    (t1 t2 : Nat)
    (hto1 : tx1.to? = some a1) (hto2 : tx2.to? = some a2)
    (ha1 : toLowerS a1 = fetchhhh.targetAddress) (ha2 : toLowerS a2 = fetchhhh.targetAddress)
    (hh : toLowerS tx2.hash = toLowerS tx1.hash)
    (habs : lookupTS s.saved.m (toLowerS tx1.hash) = none)
    (hcnt : (s.saved.addCount + 1) % fetchhhh.CLEAN_EVERY ≠ 0)
    (hsz : (setEntry s.saved.m (toLowerS tx1.hash) (t1 + s.saved.ttl)).length ≤ s.saved.max)
    (hwin : t2 ≤ t1 + s.saved.ttl) :
    ∃ s1, fetchhhh.saveIfMatch t1 true tx1 s = .ok s1
      ∧ s1.out = s.out ++ [(t1, toLowerS tx1.hash)]
      ∧ fetchhhh.saveIfMatch t2 true tx2 s1 = .ok s1 := by
  refine ⟨⟨fetchhhh.TTLSet.add t1 (toLowerS tx1.hash) s.saved,
           s.out ++ [(t1, toLowerS tx1.hash)]⟩,
    fetchhhh.saveIfMatch_fresh t1 tx1 a1 s hto1 ha1 habs, rfl, ?_⟩
  have hadd := fetchhhh.add_no_trigger t1 s.saved (toLowerS tx1.hash) hcnt hsz
  have hlook : lookupTS (fetchhhh.TTLSet.add t1 (toLowerS tx1.hash) s.saved).m
      (toLowerS tx2.hash) = some (t1 + s.saved.ttl) := by
    rw [hadd, hh]
    exact lookupTS_setEntry_self s.saved.m (toLowerS tx1.hash) _
  exact fetchhhh.saveIfMatch_dup t2 true tx2 a2 _ (t1 + s.saved.ttl) hto2 ha2 hlook (by omega)

/-- Witness for save_exactly_once: the same hash delivered twice, in different
letter case and five milliseconds apart, yields a single appended record. -/
theorem save_exactly_once_witness :
    (toLowerS "0x66A9893CC07D91D95644AEDD05D03F95E1DBA8AF" = fetchhhh.targetAddress
      ∧ 5 ≤ 0 + fetchhhh.savedInit.ttl)
    ∧ ∃ s1,
      fetchhhh.saveIfMatch 0 true
          ⟨some "0x66a9893cC07D91D95644AEDD05D03f95e1dBA8Af", "0xAA"⟩
          ⟨fetchhhh.savedInit, []⟩ = .ok s1
      ∧ s1.out = [] ++ [(0, toLowerS "0xAA")]
      ∧ fetchhhh.saveIfMatch 5 true
          ⟨some "0x66A9893CC07D91D95644AEDD05D03F95E1DBA8AF", "0xAa"⟩ s1 = .ok s1 :=
  ⟨⟨by decide, by decide⟩,
    save_exactly_once ⟨fetchhhh.savedInit, []⟩
      ⟨some "0x66a9893cC07D91D95644AEDD05D03f95e1dBA8Af", "0xAA"⟩
      ⟨some "0x66A9893CC07D91D95644AEDD05D03F95E1DBA8AF", "0xAa"⟩
      "0x66a9893cC07D91D95644AEDD05D03f95e1dBA8Af"
      "0x66A9893CC07D91D95644AEDD05D03F95E1DBA8AF"
      0 5 rfl rfl (by decide) (by decide) (by decide) rfl (by decide) (by decide) (by decide)⟩

namespace fetchhhh

lemma enqStep_fresh (now : Nat) (s : QState) (raw : String)
    (hlc : toLowerS raw = raw) (hne : raw ≠ "")
    (habs : lookupTS s.seen.m raw = none) :
    enqStep now s raw =
      ⟨(if MAX_QUEUE ≤ s.q.length then s.q.drop QUEUE_DROP else s.q) ++ [raw],
       TTLSet.add now raw s.seen⟩ := by
  rw [enqStep]
  dsimp only
  rw [hlc, if_neg hne, hasM_of_absent now s.seen raw habs]
  simp

lemma enqStep_seen (now : Nat) (s : QState) (raw : String)
    (hlc : toLowerS raw = raw) (hne : raw ≠ "")
    (t : Nat) (hlive : lookupTS s.seen.m raw = some t) (ht : ¬ t < now) :
    enqStep now s raw = s := by
  rw [enqStep]
  dsimp only
  rw [hlc, if_neg hne, hasM_of_live now s.seen raw t hlive ht]
  simp

end fetchhhh

/-- Claim C6: intake is idempotent in both variants: enqueuing the same hash twice
before it is dequeued (within the seen TTL for the polling variant) leaves
exactly one entry for it in the queue, because the second enqueue is filtered
by the seen set. -/
theorem enqueue_idempotent
    (s : fetchhhh.QState) (raw : String) (t1 t2 : Nat)
    (hlc : toLowerS raw = raw) (hne : raw ≠ "")
    (habs : lookupTS s.seen.m raw = none)
    (hcnt : (s.seen.addCount + 1) % fetchhhh.CLEAN_EVERY ≠ 0)
    (hsz : (setEntry s.seen.m raw (t1 + s.seen.ttl)).length ≤ s.seen.max)
    (hwin : t2 ≤ t1 + s.seen.ttl)
    (hq : s.q.length < fetchhhh.MAX_QUEUE)
    (hcount : s.q.count raw = 0)
    (s' : idts.St) (h2 : raw ∉ s'.seen) (hq2 : s'.q.count raw = 0) :
    ((fetchhhh.enqueueMany t2 [raw] (fetchhhh.enqueueMany t1 [raw] s)).q.count raw = 1)
    ∧ ((idts.enqueue raw (idts.enqueue raw s')).q.count raw = 1) := by
  constructor
  · have h1 : fetchhhh.enqueueMany t1 [raw] s =
        fetchhhh.enqStep t1 s raw := rfl
    have hstep1 := fetchhhh.enqStep_fresh t1 s raw hlc hne habs
    rw [if_neg (not_le.mpr hq)] at hstep1
    have hadd := fetchhhh.add_no_trigger t1 s.seen raw hcnt hsz
    have hlook : lookupTS (fetchhhh.TTLSet.add t1 raw s.seen).m raw
        = some (t1 + s.seen.ttl) := by
      rw [hadd]
      exact lookupTS_setEntry_self s.seen.m raw _
    have h2' : fetchhhh.enqueueMany t2 [raw]
        (⟨s.q ++ [raw], fetchhhh.TTLSet.add t1 raw s.seen⟩ : fetchhhh.QState) =
        ⟨s.q ++ [raw], fetchhhh.TTLSet.add t1 raw s.seen⟩ :=
      fetchhhh.enqStep_seen t2 _ raw hlc hne (t1 + s.seen.ttl) hlook (by omega)
    rw [h1, hstep1, h2']
    simp [List.count_append, hcount]
  · have hstep1 : idts.enqueue raw s' =
        { s' with seen := s'.seen ++ [raw], q := s'.q ++ [raw] } := by
      rw [idts.enqueue]
      dsimp only
      rw [if_neg hne, hlc, if_neg h2]
    have hmem : raw ∈ s'.seen ++ [raw] := List.mem_append_right _ (List.mem_singleton.mpr rfl)
    have hstep2 : idts.enqueue raw { s' with seen := s'.seen ++ [raw], q := s'.q ++ [raw] } =
        { s' with seen := s'.seen ++ [raw], q := s'.q ++ [raw] } := by
      rw [idts.enqueue]
      dsimp only
      rw [if_neg hne, hlc, if_pos hmem]
    rw [hstep1, hstep2]
    simp [List.count_append, hq2]

/-- Witness for enqueue_idempotent at empty initial states. -/
theorem enqueue_idempotent_witness :
    (toLowerS "a" = "a" ∧ ("a" : String) ≠ "")
    ∧ (((fetchhhh.enqueueMany 1 ["a"]
          (fetchhhh.enqueueMany 0 ["a"] ⟨[], fetchhhh.seenInit⟩)).q.count "a" = 1)
      ∧ ((idts.enqueue "a" (idts.enqueue "a" ⟨[], [], [], []⟩)).q.count "a" = 1)) :=
  ⟨⟨by decide, by decide⟩,
    enqueue_idempotent ⟨[], fetchhhh.seenInit⟩ "a" 0 1 (by decide) (by decide) rfl
      (by decide) (by decide) (by decide) (by decide) rfl
      ⟨[], [], [], []⟩ (by decide) rfl⟩

namespace fetchhhh

lemma hasM_snd_absent (now : Nat) (s : TTLSet) (k' k : String)
    (habs : lookupTS s.m k = none) :
    lookupTS (TTLSet.hasM now s k').2.m k = none := by
  cases hl : lookupTS s.m k' with
  | none =>
    rw [TTLSet.hasM, hl]
    exact habs
  | some t =>
    rw [TTLSet.hasM, hl]
    dsimp only
    split
    · exact lookupTS_filter_none _ habs
    · exact habs

lemma enqStep_absent (now : Nat) (s : QState) (raw k : String)
    (hk : toLowerS raw ≠ k) (habs : lookupTS s.seen.m k = none) :
    lookupTS (enqStep now s raw).seen.m k = none := by
  rw [enqStep]
  dsimp only
  by_cases hemp : toLowerS raw = ""
  · rw [if_pos hemp]
    exact habs
  · rw [if_neg hemp]
    have hp2 := hasM_snd_absent now s.seen (toLowerS raw) k habs
    by_cases hp : (TTLSet.hasM now s.seen (toLowerS raw)).1 = true
    · rw [if_pos hp]
      exact hp2
    · rw [if_neg hp]
      dsimp only
      exact add_absent_ne now _ hk hp2

lemma enqueueMany_absent (now : Nat) (hs : List String) (s : QState) (k : String)
    (hall : ∀ h ∈ hs, toLowerS h = h) (hk : k ∉ hs)
    (habs : lookupTS s.seen.m k = none) :
    lookupTS (enqueueMany now hs s).seen.m k = none := by
  induction hs generalizing s with
  | nil => exact habs
  | cons h0 rest ih =>
    rw [enqueueMany, List.foldl_cons]
    have hk0 : toLowerS h0 ≠ k := by
      rw [hall h0 (List.mem_cons_self h0 rest)]
      intro hc
      exact hk (hc ▸ List.mem_cons_self h0 rest)
    exact ih (enqStep now s h0) (fun h hm => hall h (List.mem_cons_of_mem h0 hm))
      (fun hc => hk (List.mem_cons_of_mem h0 hc))
      (enqStep_absent now s h0 k hk0 habs)

lemma enqueueMany_no_drop (now : Nat) (hs : List String) (s : QState)
    (hfresh : ∀ h ∈ hs, lookupTS s.seen.m h = none)
    (hlc : ∀ h ∈ hs, toLowerS h = h ∧ h ≠ "")
    (hnd : hs.Nodup)
    (hlen : s.q.length + hs.length ≤ MAX_QUEUE) :
    (enqueueMany now hs s).q = s.q ++ hs := by
  induction hs generalizing s with
  | nil => simp [enqueueMany]
  | cons h0 rest ih =>
    rw [enqueueMany, List.foldl_cons]
    obtain ⟨hlc0, hne0⟩ := hlc h0 (List.mem_cons_self h0 rest)
    have hstep := enqStep_fresh now s h0 hlc0 hne0 (hfresh h0 (List.mem_cons_self h0 rest))
    have hnodrop : ¬ MAX_QUEUE ≤ s.q.length := by
      simp only [List.length_cons] at hlen
      omega
    rw [if_neg hnodrop] at hstep
    rw [hstep]
    have hrest : ∀ h ∈ rest,
        lookupTS (⟨s.q ++ [h0], TTLSet.add now h0 s.seen⟩ : QState).seen.m h = none := by
      intro h hm
      have hne : h0 ≠ h := by
        intro hc
        rw [List.nodup_cons] at hnd
        exact hnd.1 (hc ▸ hm)
      exact add_absent_ne now s.seen hne (hfresh h (List.mem_cons_of_mem h0 hm))
    have := ih ⟨s.q ++ [h0], TTLSet.add now h0 s.seen⟩ hrest
      (fun h hm => hlc h (List.mem_cons_of_mem h0 hm))
      (List.nodup_cons.mp hnd).2
      (by simp only [List.length_append, List.length_cons, List.length_nil] at hlen ⊢; omega)
    rw [enqueueMany] at this
    rw [this, List.append_assoc, List.singleton_append]

lemma enqueueMany_at_capacity (now : Nat) (hs : List String) (s : QState)
    (hfresh : ∀ h ∈ hs, lookupTS s.seen.m h = none)
    (hlc : ∀ h ∈ hs, toLowerS h = h ∧ h ≠ "")
    (hnd : hs.Nodup)
    (hcap : s.q.length = MAX_QUEUE)
    (hn1 : 1 ≤ hs.length) (hn2 : hs.length ≤ QUEUE_DROP) :
    (enqueueMany now hs s).q = s.q.drop QUEUE_DROP ++ hs := by
  cases hs with
  | nil => simp at hn1
  | cons h0 rest =>
    rw [enqueueMany, List.foldl_cons]
    obtain ⟨hlc0, hne0⟩ := hlc h0 (List.mem_cons_self h0 rest)
    have hstep := enqStep_fresh now s h0 hlc0 hne0 (hfresh h0 (List.mem_cons_self h0 rest))
    rw [if_pos (le_of_eq hcap.symm)] at hstep
    rw [hstep]
    have hrest : ∀ h ∈ rest,
        lookupTS (⟨s.q.drop QUEUE_DROP ++ [h0], TTLSet.add now h0 s.seen⟩ : QState).seen.m h
          = none := by
      intro h hm
      have hne : h0 ≠ h := by
        intro hc
        rw [List.nodup_cons] at hnd
        exact hnd.1 (hc ▸ hm)
      exact add_absent_ne now s.seen hne (hfresh h (List.mem_cons_of_mem h0 hm))
    have hlen2 : (s.q.drop QUEUE_DROP ++ [h0]).length + rest.length ≤ MAX_QUEUE := by
      rw [List.length_append, List.length_drop, hcap]
      simp only [List.length_cons] at hn2
      have hmq : MAX_QUEUE = 200000 := rfl
      have hqd : QUEUE_DROP = 2000 := rfl
      simp only [List.length_cons, List.length_nil]
      omega
    have := enqueueMany_no_drop now rest ⟨s.q.drop QUEUE_DROP ++ [h0], TTLSet.add now h0 s.seen⟩
      hrest (fun h hm => hlc h (List.mem_cons_of_mem h0 hm)) (List.nodup_cons.mp hnd).2 hlen2
    rw [enqueueMany] at this
    rw [this, List.append_assoc, List.singleton_append]

end fetchhhh

lemma charb_toLower : Char.toLower 'b' = 'b' := by decide

lemma toLowerS_bstring (n : Nat) :
    toLowerS (⟨List.replicate n 'b'⟩ : String) = ⟨List.replicate n 'b'⟩ := by
  rw [toLowerS]
  rw [show (⟨List.replicate n 'b'⟩ : String).data = List.replicate n 'b' from rfl]
  rw [List.map_replicate, charb_toLower]

lemma bstring_ne_empty (n : Nat) : (⟨List.replicate (n + 1) 'b'⟩ : String) ≠ "" := by
  intro hc
  have hd : List.replicate (n + 1) 'b' = ("" : String).data := congrArg String.data hc
  rw [show ("" : String).data = [] from rfl] at hd
  simp [List.replicate] at hd

lemma bstring_inj : Function.Injective (fun i : Nat => (⟨List.replicate (i + 1) 'b'⟩ : String)) := by
  intro i j hij
  have hd : List.replicate (i + 1) 'b' = List.replicate (j + 1) 'b' := congrArg String.data hij
  have hlen := congrArg List.length hd
  simp only [List.length_replicate] at hlen
  omega

lemma freshHashes_length (n : Nat) : (freshHashes n).length = n := by
  rw [freshHashes, List.length_map, List.length_range]

lemma freshHashes_lc (n : Nat) : ∀ h ∈ freshHashes n, toLowerS h = h := by
  intro h hm
  rw [freshHashes] at hm
  obtain ⟨i, _, rfl⟩ := List.mem_map.mp hm
  exact toLowerS_bstring (i + 1)

lemma freshHashes_props (n : Nat) : ∀ h ∈ freshHashes n, toLowerS h = h ∧ h ≠ "" := by
  intro h hm
  rw [freshHashes] at hm
  obtain ⟨i, _, rfl⟩ := List.mem_map.mp hm
  exact ⟨toLowerS_bstring (i + 1), bstring_ne_empty i⟩

lemma freshHashes_nodup (n : Nat) : (freshHashes n).Nodup := by
  rw [freshHashes]
  exact (List.nodup_range n).map bstring_inj

lemma last_not_mem_freshHashes :
    (⟨List.replicate 2001 'b'⟩ : String) ∉ freshHashes 2000 := by
  intro hc
  rw [freshHashes] at hc
  obtain ⟨i, hir, heq⟩ := List.mem_map.mp hc
  have hd : List.replicate (i + 1) 'b' = List.replicate 2001 'b' := congrArg String.data heq
  have hlen := congrArg List.length hd
  simp only [List.length_replicate] at hlen
  rw [List.mem_range] at hir
  omega

/-- Claim C2, amended: when the Bounded Queue holds exactly MAX_QUEUE entries and N
fresh hashes with 1 ≤ N ≤ QUEUE_DROP are enqueued, the oldest QUEUE_DROP
entries are dropped once before appending and the resulting length is
capacity - drop + N = min(capacity, capacity - drop + N). For N > QUEUE_DROP
the original min formula fails because a further drop event fires each time the
queue refills to capacity (see the counterexample at N = 2001). -/
theorem enqueue_overflow_drop (now : Nat) (hs : List String) (s : fetchhhh.QState)
    (hfresh : ∀ h ∈ hs, lookupTS s.seen.m h = none)
    (hlc : ∀ h ∈ hs, toLowerS h = h ∧ h ≠ "")
    (hnd : hs.Nodup)
    (hcap : s.q.length = fetchhhh.MAX_QUEUE)
    (hn1 : 1 ≤ hs.length) (hn2 : hs.length ≤ fetchhhh.QUEUE_DROP) :
    (fetchhhh.enqueueMany now hs s).q = s.q.drop fetchhhh.QUEUE_DROP ++ hs
    ∧ (fetchhhh.enqueueMany now hs s).q.length
        = fetchhhh.MAX_QUEUE - fetchhhh.QUEUE_DROP + hs.length
    ∧ fetchhhh.MAX_QUEUE - fetchhhh.QUEUE_DROP + hs.length
        = min fetchhhh.MAX_QUEUE (fetchhhh.MAX_QUEUE - fetchhhh.QUEUE_DROP + hs.length) := by
  have hq := fetchhhh.enqueueMany_at_capacity now hs s hfresh hlc hnd hcap hn1 hn2
  refine ⟨hq, ?_, ?_⟩
  · rw [hq, List.length_append, List.length_drop, hcap]
  · have hmq : fetchhhh.MAX_QUEUE = 200000 := rfl
    have hqd : fetchhhh.QUEUE_DROP = 2000 := rfl
    omega

/-- Witness for enqueue_overflow_drop: a single fresh hash into a full queue. -/
theorem enqueue_overflow_drop_witness :
    bigQ.length = fetchhhh.MAX_QUEUE
    ∧ ((fetchhhh.enqueueMany 0 ["a"] ⟨bigQ, fetchhhh.seenInit⟩).q
          = bigQ.drop fetchhhh.QUEUE_DROP ++ ["a"]
      ∧ (fetchhhh.enqueueMany 0 ["a"] ⟨bigQ, fetchhhh.seenInit⟩).q.length
          = fetchhhh.MAX_QUEUE - fetchhhh.QUEUE_DROP + (["a"] : List String).length
      ∧ fetchhhh.MAX_QUEUE - fetchhhh.QUEUE_DROP + (["a"] : List String).length
          = min fetchhhh.MAX_QUEUE
              (fetchhhh.MAX_QUEUE - fetchhhh.QUEUE_DROP + (["a"] : List String).length)) :=
  ⟨by rw [bigQ]; exact List.length_replicate _ _,
   enqueue_overflow_drop 0 ["a"] ⟨bigQ, fetchhhh.seenInit⟩
     (fun h _ => rfl)
     (by intro h hm; rw [List.mem_singleton] at hm; subst hm; exact ⟨by decide, by decide⟩)
     (by decide)
     (by rw [bigQ]; exact List.length_replicate _ _)
     (by decide) (by decide)⟩

/-- Counterexample for claim C2: from a full queue, enqueuing 2001 fresh hashes triggers a
second drop event, leaving 198001 entries, while the claimed formula
min(capacity, capacity - drop + N) gives 200000. -/
theorem enqueue_overflow_formula_counterexample :
    (fetchhhh.enqueueMany 0 (freshHashes 2001) ⟨bigQ, fetchhhh.seenInit⟩).q.length = 198001
    ∧ (198001 : Nat)
        ≠ min fetchhhh.MAX_QUEUE
            (fetchhhh.MAX_QUEUE - fetchhhh.QUEUE_DROP + (freshHashes 2001).length) := by
  constructor
  · have hsplit : freshHashes 2001
        = freshHashes 2000 ++ [(⟨List.replicate 2001 'b'⟩ : String)] := by
      rw [freshHashes, List.range_succ, List.map_append]
      rfl
    have hcapA : (⟨bigQ, fetchhhh.seenInit⟩ : fetchhhh.QState).q.length
        = fetchhhh.MAX_QUEUE := by
      rw [bigQ]
      exact List.length_replicate _ _
    have h1 := fetchhhh.enqueueMany_at_capacity 0 (freshHashes 2000)
      ⟨bigQ, fetchhhh.seenInit⟩ (fun h _ => rfl) (freshHashes_props 2000)
      (freshHashes_nodup 2000) hcapA
      (by rw [freshHashes_length]; omega)
      (by rw [freshHashes_length]
          have hqd : fetchhhh.QUEUE_DROP = 2000 := rfl
          omega)
    have hq1len : (fetchhhh.enqueueMany 0 (freshHashes 2000)
        ⟨bigQ, fetchhhh.seenInit⟩).q.length = fetchhhh.MAX_QUEUE := by
      rw [h1, List.length_append, List.length_drop, freshHashes_length]
      have hbq : (⟨bigQ, fetchhhh.seenInit⟩ : fetchhhh.QState).q.length
          = fetchhhh.MAX_QUEUE := hcapA
      rw [hbq]
      have hmq : fetchhhh.MAX_QUEUE = 200000 := rfl
      have hqd : fetchhhh.QUEUE_DROP = 2000 := rfl
      omega
    have habs2 : lookupTS (fetchhhh.enqueueMany 0 (freshHashes 2000)
        ⟨bigQ, fetchhhh.seenInit⟩).seen.m (⟨List.replicate 2001 'b'⟩ : String) = none :=
      fetchhhh.enqueueMany_absent 0 (freshHashes 2000) ⟨bigQ, fetchhhh.seenInit⟩ _
        (freshHashes_lc 2000) last_not_mem_freshHashes rfl
    have hstep := fetchhhh.enqStep_fresh 0
      (fetchhhh.enqueueMany 0 (freshHashes 2000) ⟨bigQ, fetchhhh.seenInit⟩)
      (⟨List.replicate 2001 'b'⟩ : String)
      (toLowerS_bstring 2001) (bstring_ne_empty 2000) habs2
    rw [if_pos (le_of_eq hq1len.symm)] at hstep
    rw [hsplit, fetchhhh.enqueueMany, List.foldl_append]
    have hfold : List.foldl (fetchhhh.enqStep 0) ⟨bigQ, fetchhhh.seenInit⟩ (freshHashes 2000)
        = fetchhhh.enqueueMany 0 (freshHashes 2000) ⟨bigQ, fetchhhh.seenInit⟩ := rfl
    rw [hfold, List.foldl_cons, List.foldl_nil, hstep]
    rw [List.length_append, List.length_drop, hq1len]
    simp only [List.length_cons, List.length_nil]
    have hmq : fetchhhh.MAX_QUEUE = 200000 := rfl
    have hqd : fetchhhh.QUEUE_DROP = 2000 := rfl
    omega
  · have hlen : (freshHashes 2001).length = 2001 := freshHashes_length 2001
    rw [hlen]
    have hmq : fetchhhh.MAX_QUEUE = 200000 := rfl
    have hqd : fetchhhh.QUEUE_DROP = 2000 := rfl
    omega

namespace fetchhhh

lemma getTxLoop_all_none (f : Nat → Option Tx) (hf : ∀ i, f i = none) :
    ∀ (rem i : Nat) (acc : List ℚ),
      getTxLoop f i rem acc
        = (none, acc ++ (List.range rem).map
            (fun j => (BASE_BACKOFF : ℚ) * (7 / 5) ^ (i + j))) := by
  intro rem
  induction rem with
  | zero =>
    intro i acc
    simp [getTxLoop]
  | succ n ih =>
    intro i acc
    have hlist : (List.range (n + 1)).map (fun j => (BASE_BACKOFF : ℚ) * (7 / 5) ^ (i + j))
        = (BASE_BACKOFF : ℚ) * (7 / 5) ^ i
            :: (List.range n).map (fun j => (BASE_BACKOFF : ℚ) * (7 / 5) ^ (i + 1 + j)) := by
      rw [List.range_succ_eq_map, List.map_cons, List.map_map]
      congr 1
      apply List.map_congr_left
      intro j _
      simp only [Function.comp_apply, Nat.succ_eq_add_one]
      rw [show i + (j + 1) = i + 1 + j from by omega]
    simp only [getTxLoop, hf i]
    rw [ih (i + 1) _, hlist]
    simp [List.append_assoc]

end fetchhhh

namespace idts

lemma fetchLoop_all_none (f : Nat → Option Tx) (hf : ∀ i, f i = none) :
    ∀ (rem i : Nat) (acc : List ℚ),
      fetchLoop f i rem acc
        = (none, acc ++ (List.range rem).map
            (fun j => (BASE_BACKOFF_MS : ℚ) * (7 / 5) ^ (i + j + 1))) := by
  intro rem
  induction rem with
  | zero =>
    intro i acc
    simp [fetchLoop]
  | succ n ih =>
    intro i acc
    have hlist : (List.range (n + 1)).map (fun j => (BASE_BACKOFF_MS : ℚ) * (7 / 5) ^ (i + j + 1))
        = (BASE_BACKOFF_MS : ℚ) * (7 / 5) ^ (i + 1)
            :: (List.range n).map (fun j => (BASE_BACKOFF_MS : ℚ) * (7 / 5) ^ (i + 1 + j + 1)) := by
      rw [List.range_succ_eq_map, List.map_cons, List.map_map]
      congr 1
      apply List.map_congr_left
      intro j _
      simp only [Function.comp_apply, Nat.succ_eq_add_one]
      rw [show i + (j + 1) + 1 = i + 1 + j + 1 from by omega]
    simp only [fetchLoop, hf i]
    rw [ih (i + 1) _, hlist]
    simp [List.append_assoc]

lemma fetchTxWithRetry_none (g : Nat → Option Tx) (hg : ∀ i, g i = none) :
    fetchTxWithRetry g
      = (none, (List.range MAX_RETRY).map
          (fun j => (BASE_BACKOFF_MS : ℚ) * (7 / 5) ^ (j + 1))) := by
  rw [fetchTxWithRetry, fetchLoop_all_none g hg MAX_RETRY 0 []]
  simp

lemma fetchTxWithRetry_first (g : Nat → Option Tx) (tx : Tx) (hg : g 0 = some tx) :
    fetchTxWithRetry g = (some tx, []) := by
  rw [fetchTxWithRetry, show MAX_RETRY = 99 + 1 from rfl, fetchLoop, hg]

end idts

/-- Claim C5, amended: a hash whose fetch never yields a detail is retried exactly
MAX_RETRY times and then dropped as null in both variants; the recorded backoff
before the next attempt after the k-th failed attempt is
BASE_BACKOFF * 1.4 ^ k (k = 0, 1, ...) in the polling variant, but
BASE_BACKOFF_MS * 1.4 ^ (k + 1) in the push variant, whose exponent starts at 1
(the counter is incremented before the delay is computed); an unresolved hash is
skipped by the worker without blocking the other hashes of its batch. -/
theorem retry_schedule (f : Nat → Option Tx) (hf : ∀ i, f i = none) :
    fetchhhh.getTxWithRetry f
      = (none, (List.range fetchhhh.MAX_RETRY).map
          (fun i => (fetchhhh.BASE_BACKOFF : ℚ) * (7 / 5) ^ i))
    ∧ (fetchhhh.getTxWithRetry f).2.length = fetchhhh.MAX_RETRY
    ∧ idts.fetchTxWithRetry f
      = (none, (List.range idts.MAX_RETRY).map
          (fun i => (idts.BASE_BACKOFF_MS : ℚ) * (7 / 5) ^ (i + 1)))
    ∧ (idts.fetchTxWithRetry f).2.length = idts.MAX_RETRY
    ∧ ∀ (s : idts.St) (g : String → Nat → Option Tx) (hbad hgood : String)
        (tx : Tx) (now : Nat),
        s.q = [hbad, hgood] → (∀ i, g hbad i = none) → g hgood 0 = some tx →
        idts.worker now g true s
          = (idts.saveIfMatch now true tx { s with q := s.q.drop idts.BATCH_SIZE }).1 := by
  have h1 : fetchhhh.getTxWithRetry f
      = (none, (List.range fetchhhh.MAX_RETRY).map
          (fun i => (fetchhhh.BASE_BACKOFF : ℚ) * (7 / 5) ^ i)) := by
    rw [fetchhhh.getTxWithRetry, fetchhhh.getTxLoop_all_none f hf fetchhhh.MAX_RETRY 0 []]
    simp
  have h2 : idts.fetchTxWithRetry f
      = (none, (List.range idts.MAX_RETRY).map
          (fun i => (idts.BASE_BACKOFF_MS : ℚ) * (7 / 5) ^ (i + 1))) :=
    idts.fetchTxWithRetry_none f hf
  refine ⟨h1, ?_, h2, ?_, ?_⟩
  · rw [h1]
    simp
  · rw [h2]
    simp
  · intro s g hbad hgood tx now hsq hb hg
    rw [idts.worker, hsq]
    rw [if_neg (by simp)]
    have htake : ([hbad, hgood] : List String).take idts.BATCH_SIZE = [hbad, hgood] := by
      apply List.take_of_length_le
      simp [idts.BATCH_SIZE]
    rw [htake, List.foldl_cons, List.foldl_cons, List.foldl_nil]
    have hfb : (idts.fetchTxWithRetry (g hbad)).1 = none := by
      rw [idts.fetchTxWithRetry_none (g hbad) hb]
    rw [hfb]
    dsimp only
    rw [idts.fetchTxWithRetry_first (g hgood) tx hg]

/-- Witness for retry_schedule: the always-failing oracle performs exactly
MAX_RETRY attempts in each variant. -/
theorem retry_schedule_witness :
    (fetchhhh.getTxWithRetry (fun _ => none)).2.length = fetchhhh.MAX_RETRY
    ∧ (idts.fetchTxWithRetry (fun _ => none)).2.length = idts.MAX_RETRY :=
  ⟨(retry_schedule (fun _ => none) (fun _ => rfl)).2.1,
   (retry_schedule (fun _ => none) (fun _ => rfl)).2.2.2.1⟩

/-- Counterexample for claim C5: in the push variant the recorded delay schedule differs
from the claimed BASE_BACKOFF * 1.4 ^ attempt for attempt = 0, 1, ...: the
first recorded delay is 50 * (7/5) ^ 1 = 70, not 50 * (7/5) ^ 0 = 50. -/
theorem retry_schedule_counterexample :
    (idts.fetchTxWithRetry (fun _ => none)).2
      ≠ (List.range idts.MAX_RETRY).map
          (fun i => (idts.BASE_BACKOFF_MS : ℚ) * (7 / 5) ^ i) := by
  intro hc
  rw [idts.fetchTxWithRetry_none (fun _ => none) (fun _ => rfl)] at hc
  dsimp only at hc
  rw [show idts.MAX_RETRY = 99 + 1 from rfl, List.range_succ_eq_map, List.map_cons,
    List.map_cons] at hc
  have hhead := (List.cons.injEq _ _ _ _ ▸ hc :
      ((idts.BASE_BACKOFF_MS : ℚ) * (7 / 5) ^ (0 + 1)
          = (idts.BASE_BACKOFF_MS : ℚ) * (7 / 5) ^ (0 : Nat)) ∧ _).1
  rw [show idts.BASE_BACKOFF_MS = 50 from rfl] at hhead
  norm_num at hhead

namespace idts

lemma pushTargetAddress_ne_empty : targetAddress ≠ "" := by decide

lemma pushSaveIfMatch_fresh (now : Nat) (tx : Tx) (a : String) (s : St)
    (hto : tx.to? = some a) (ha : toLowerS a = targetAddress)
    (hns : toLowerS tx.hash ∉ s.saved) :
    saveIfMatch now true tx s
      = ({ s with saved := s.saved ++ [toLowerS tx.hash],
                  out := s.out ++ [(now, toLowerS tx.hash)] }, false) := by
  rw [saveIfMatch, hto]
  dsimp only
  rw [ha, if_neg pushTargetAddress_ne_empty, if_pos rfl, if_neg hns]
  rfl

end idts

/-- Claim C7: listPendingHashes attempts txpool_content, then eth_pendingTransactions,
then parity_pendingTransactions, in priority order; when every method fails the
thrown error is caught by the cycle-level try, the warning is logged, the
pipeline state is left unchanged, and the loop proceeds with the remaining
cycles. -/
theorem backfill_fallback_and_skip :
    (∀ (r : fetchhhh.Rpc) (c : fetchhhh.TxpoolContent), r.txpool = .ok c →
      fetchhhh.listPendingHashes r
        = .ok (fetchhhh.extractBucket c.pending ++ fetchhhh.extractBucket c.queued))
    ∧ (∀ (r : fetchhhh.Rpc) (arr : List (Option String)), r.txpool = .error () →
        r.ethPending = .ok arr →
        fetchhhh.listPendingHashes r = .ok (arr.filterMap fetchhhh.truthy))
    ∧ (∀ (r : fetchhhh.Rpc) (arr : List (Option String)), r.txpool = .error () →
        r.ethPending = .error () → r.parityPending = .ok arr →
        fetchhhh.listPendingHashes r = .ok (arr.filterMap fetchhhh.truthy))
    ∧ (∀ r : fetchhhh.Rpc, r.txpool = .error () → r.ethPending = .error () →
        r.parityPending = .error () → fetchhhh.listPendingHashes r = .error ())
    ∧ (∀ (r : fetchhhh.Rpc) (oracle : String → Nat → Option Tx) (sinkOk rand10 : Bool)
        (now : Nat) (s : fetchhhh.PState), fetchhhh.listPendingHashes r = .error () →
        fetchhhh.loopIter r oracle sinkOk rand10 now s = (s, true))
    ∧ (∀ (oracle : String → Nat → Option Tx) (c : fetchhhh.CycleInput)
        (rest : List fetchhhh.CycleInput) (s : fetchhhh.PState),
        fetchhhh.listPendingHashes c.rpc = .error () →
        fetchhhh.runCycles oracle (c :: rest) s = fetchhhh.runCycles oracle rest s) := by
  have hiter : ∀ (r : fetchhhh.Rpc) (oracle : String → Nat → Option Tx)
      (sinkOk rand10 : Bool) (now : Nat) (s : fetchhhh.PState),
      fetchhhh.listPendingHashes r = .error () →
      fetchhhh.loopIter r oracle sinkOk rand10 now s = (s, true) := by
    intro r oracle sinkOk rand10 now s herr
    rw [fetchhhh.loopIter, herr]
  refine ⟨?_, ?_, ?_, ?_, hiter, ?_⟩
  · intro r c h
    rw [fetchhhh.listPendingHashes, h]
  · intro r arr h1 h2
    rw [fetchhhh.listPendingHashes, h1, h2]
  · intro r arr h1 h2 h3
    rw [fetchhhh.listPendingHashes, h1, h2, h3]
  · intro r h1 h2 h3
    rw [fetchhhh.listPendingHashes, h1, h2, h3]
  · intro oracle c rest s herr
    rw [fetchhhh.runCycles, List.foldl_cons,
      hiter c.rpc oracle c.sinkOk c.rand10 c.now s herr]
    rfl

/-- Witness for backfill_fallback_and_skip: a cycle whose three RPC methods all
fail leaves the one-hash pipeline state untouched and the loop goes on. -/
theorem backfill_fallback_and_skip_witness :
    fetchhhh.listPendingHashes rpcAllFail = .error ()
    ∧ fetchhhh.loopIter rpcAllFail oracleMatch true false 0 pStateOne = (pStateOne, true)
    ∧ fetchhhh.runCycles oracleMatch [⟨rpcAllFail, true, false, 0⟩] pStateOne = pStateOne :=
  ⟨backfill_fallback_and_skip.2.2.2.1 rpcAllFail rfl rfl rfl,
   backfill_fallback_and_skip.2.2.2.2.1 rpcAllFail oracleMatch true false 0 pStateOne rfl,
   backfill_fallback_and_skip.2.2.2.2.2 oracleMatch ⟨rpcAllFail, true, false, 0⟩ [] pStateOne rfl⟩

/-- Claim C8, amended: in the push variant a failing append is caught inside
saveIfMatch and logged, the saved set stays unmarked and no record is written,
and since the hash is already in the seen set a redelivery is not re-enqueued,
so the match is lost; in the polling variant saveIfMatch has no handler and the
failure escapes as an exception towards the cycle-level catch (where the skipped
queue splice makes the match be retried next cycle, not lost). -/
theorem sink_failure_behavior
    (now : Nat) (tx : Tx) (a : String) (s : idts.St) (ss : fetchhhh.SaveState)
    (hto : tx.to? = some a) (ha : toLowerS a = idts.targetAddress)
    (hns : toLowerS tx.hash ∉ s.saved)
    (habs : lookupTS ss.saved.m (toLowerS tx.hash) = none) :
    idts.saveIfMatch now false tx s = (s, true)
    ∧ (∀ raw : String, raw ≠ "" → toLowerS raw = toLowerS tx.hash →
        toLowerS tx.hash ∈ s.seen → idts.enqueue raw s = s)
    ∧ fetchhhh.saveIfMatch now false tx ss = .error ss := by
  refine ⟨?_, ?_, ?_⟩
  · rw [idts.saveIfMatch, hto]
    dsimp only
    rw [ha, if_neg idts.pushTargetAddress_ne_empty, if_pos rfl, if_neg hns]
    rfl
  · intro raw hraw hlow hseen
    rw [idts.enqueue, if_neg hraw]
    dsimp only
    rw [hlow, if_pos hseen]
  · exact fetchhhh.saveIfMatch_sinkfail now tx a ss hto ha habs

/-- Witness for sink_failure_behavior on a concrete matching transaction whose
hash is already seen. -/
theorem sink_failure_behavior_witness :
    idts.saveIfMatch 7 false txMatch ⟨[], ["0xaa"], [], []⟩ = (⟨[], ["0xaa"], [], []⟩, true)
    ∧ idts.enqueue "0xAa" ⟨[], ["0xaa"], [], []⟩ = ⟨[], ["0xaa"], [], []⟩
    ∧ fetchhhh.saveIfMatch 7 false txMatch ⟨fetchhhh.savedInit, []⟩
        = .error ⟨fetchhhh.savedInit, []⟩ :=
  ⟨(sink_failure_behavior 7 txMatch _ ⟨[], ["0xaa"], [], []⟩ ⟨fetchhhh.savedInit, []⟩
      rfl (by decide) (by decide) rfl).1,
   (sink_failure_behavior 7 txMatch _ ⟨[], ["0xaa"], [], []⟩ ⟨fetchhhh.savedInit, []⟩
      rfl (by decide) (by decide) rfl).2.1 "0xAa" (by decide) (by decide) (by decide),
   (sink_failure_behavior 7 txMatch _ ⟨[], ["0xaa"], [], []⟩ ⟨fetchhhh.savedInit, []⟩
      rfl (by decide) (by decide) rfl).2.2⟩

/-- Counterexample for claim C8: in the polling variant the failing append escapes
saveIfMatch as an exception, and the match is not lost: with the sink failing in
the first cycle and healthy in the second, the queue splice is skipped, the hash
stays queued, and the second cycle appends the record after all. -/
theorem sink_failure_retry_counterexample :
    fetchhhh.saveIfMatch 0 false txMatch ⟨fetchhhh.savedInit, []⟩
        = .error ⟨fetchhhh.savedInit, []⟩
    ∧ (fetchhhh.runCycles oracleMatch
        [⟨rpcEmptyOk, false, false, 0⟩, ⟨rpcEmptyOk, true, false, 1⟩] pStateOne).out
      = [(1, "0xaa")] := by
  constructor
  · exact fetchhhh.saveIfMatch_sinkfail 0 txMatch
      "0x66a9893cC07D91D95644AEDD05D03f95e1dBA8Af" ⟨fetchhhh.savedInit, []⟩
      rfl (by decide) rfl
  · rfl

/-- Claim C9, amended: every record appended by the polling and the push variant
carries the lowercased transaction hash and renders as the iso timestamp,
a space-pipe-space separator, the hash, and a newline, appended after the
existing records, which are preserved; index.js instead writes the
subscription-delivered hash verbatim, lowercase only when delivered so. -/
theorem output_line_format
    (now : Nat) (tx : Tx) (a : String) (ss : fetchhhh.SaveState) (s : idts.St)
    (hto : tx.to? = some a) (haf : toLowerS a = fetchhhh.targetAddress)
    (habsf : lookupTS ss.saved.m (toLowerS tx.hash) = none)
    (habsi : toLowerS tx.hash ∉ s.saved) :
    (∃ ss1, fetchhhh.saveIfMatch now true tx ss = .ok ss1
      ∧ ss1.out = ss.out ++ [(now, toLowerS tx.hash)])
    ∧ (idts.saveIfMatch now true tx s).1.out = s.out ++ [(now, toLowerS tx.hash)]
    ∧ toLowerS (toLowerS tx.hash) = toLowerS tx.hash
    ∧ (∀ iso : Nat → String,
        renderLine iso (now, toLowerS tx.hash)
          = iso now ++ " | " ++ toLowerS tx.hash ++ "\n") := by
  refine ⟨⟨_, fetchhhh.saveIfMatch_fresh now tx a ss hto haf habsf, rfl⟩, ?_, ?_, ?_⟩
  · rw [idts.pushSaveIfMatch_fresh now tx a s hto haf habsi]
  · exact toLowerS_idem tx.hash
  · intro iso
    rfl

/-- Witness for output_line_format with the matching transaction and empty
stores. -/
theorem output_line_format_witness :
    ((∃ ss1, fetchhhh.saveIfMatch 0 true txMatch ⟨fetchhhh.savedInit, []⟩ = .ok ss1
      ∧ ss1.out = [] ++ [(0, toLowerS "0xAA")])
    ∧ (idts.saveIfMatch 0 true txMatch ⟨[], [], [], []⟩).1.out
        = [] ++ [(0, toLowerS "0xAA")]
    ∧ toLowerS (toLowerS "0xAA") = toLowerS "0xAA"
    ∧ (∀ iso : Nat → String,
        renderLine iso (0, toLowerS "0xAA")
          = iso 0 ++ " | " ++ toLowerS "0xAA" ++ "\n")) :=
  output_line_format 0 txMatch "0x66a9893cC07D91D95644AEDD05D03f95e1dBA8Af"
    ⟨fetchhhh.savedInit, []⟩ ⟨[], [], [], []⟩ rfl (by decide) rfl (by decide)

/-- Counterexample for claim C9: index.js appends the delivered hash verbatim: for the
matching transaction delivered under the hash 0xAA the written hash field is
0xAA, which is not lowercase. -/
theorem output_lowercase_counterexample :
    indexjs.handler "0xAA" (some txMatch) 0 [] = [(0, "0xAA")]
    ∧ toLowerS "0xAA" ≠ "0xAA" := by
  constructor
  · rfl
  · decide
